import Mathlib

/-!
The interpreters `shell.c` and `shell2.c`.

A shallow embedding of the two command interpreters of the repository.

* C strings are lists of characters (the bytes before the terminating NUL);
  a `char *` slot is an `Option`, `none` standing for `NULL`.
* The fixed-size `char *[]` arrays are lists of slots; a store outside the
  array is undefined behaviour and modelled by `none`.
* System calls are recorded as a trace of events in the process that is being
  followed.  `fork` returns a different value in parent and child, so the
  return value is a parameter of the run: the same code is followed in the
  parent (return value `> 0`), in the child (`0`) or after a failure (`-1`).
-/

/-- The bytes of a C string before its terminating NUL. -/
abbrev CStr := List Char

/-- A `char *` slot: `none` is `NULL`. -/
abbrev Ptr := Option CStr

/-- The store `a[i] = v` into a fixed-size array; `none` when `i` is out of bounds. -/
def store (a : List Ptr) (i : Nat) (v : Ptr) : Option (List Ptr) :=
  if i < a.length then some (a.set i v) else none

/-- The call `strtok(_, delims)` on the saved scan position `s`: skip leading delimiters; return
`NULL` when the string ends there; otherwise return the run of non-delimiters and move the saved
position past the delimiter that ended it. -/
def strtok (delims : List Char) (s : CStr) : Ptr × CStr :=
  match s.dropWhile (fun c => delims.contains c) with
  | [] => (none, [])
  | c :: cs =>
    (some (c :: cs.takeWhile (fun d => !delims.contains d)),
      (cs.dropWhile (fun d => !delims.contains d)).drop 1)

/-- The environment of the process, as the `NAME=value` entries of `environ`. -/
abbrev Env := List (CStr × CStr)

/-- The library call `getenv(name)`: the value of the first entry with that name, or `NULL`. -/
def getenv (env : Env) (name : CStr) : Ptr :=
  match env with
  | [] => none
  | (n, v) :: rest => if n = name then some v else getenv rest name

/-- The library call `setenv(name, value, 1)`: fails (returns `none` for `-1`) on an empty name or
one containing `=`, otherwise overwrites the entry or appends a new one. -/
def setenv (env : Env) (name value : CStr) : Option Env :=
  if name = [] ∨ '=' ∈ name then none
  else if (getenv env name).isSome then
    some (env.map (fun e => if e.1 = name then (name, value) else e))
  else some (env ++ [(name, value)])

/-! ## Processes, system calls and traces -/

/-- The globals of shell2.c that the signal handlers share with the main loop, together with the
alarm the kernel holds for the process (`none`: no alarm pending). -/
structure ShellState where
  foreground_pid : Int
  alarm : Option Nat
  deriving DecidableEq, Repr

/-- The file descriptors the sources name. -/
inductive Fd where
  | stdin
  | stdout
  | pipeRead
  | pipeWrite
  | file (fd : Int)
  deriving DecidableEq, Repr

/-- The signals the sources send. -/
inductive Signal where
  | SIGINT
  | SIGKILL
  deriving DecidableEq, Repr

/-- What arrives asynchronously while the interpreter is blocked in a wait. -/
inductive Notice where
  | interrupt
  | alarmExpired
  deriving DecidableEq, Repr

/-- One observable action of a process.  `blocked pid s` is `waitpid(pid, &status, 0)` of
shell2.c, entered while the globals are in state `s` (the state a handler running during the wait
sees). -/
inductive Event where
  | pipe (ret : Int)
  | fork (ret : Int)
  | wait
  | waitpid (pid : Int)
  | blocked (pid : Int) (s : ShellState)
  | openRead (path : Ptr) (ret : Int)
  | openWrite (path : Ptr) (ret : Int)
  | dup2 (fd target : Fd)
  | close (fd : Fd)
  | execvp (file : Ptr) (argv : List CStr)
  | kill (pid : Int) (sig : Signal)
  | alarm (seconds : Nat)
  | chdir (path : Ptr)
  | setenv (name value : Ptr)
  | perror (msg : String)
  | printf (fmt : String) (ints : List Int) (strs : List CStr)
  | exit (code : Int)
  deriving DecidableEq, Repr

/-- How a process image ends: replaced by a successful `exec`, terminated by `exit` (or by
returning from `main`), or lost to undefined behaviour (a null dereference or an access outside an
array). -/
inductive Status where
  | replaced
  | exited (code : Int)
  | undefined
  deriving DecidableEq, Repr

/-- A run of a piece of code in one process: the events so far and either the value the code
returns with, or the way the process image ended before it could return. -/
inductive Run (α : Type) where
  | ret (trace : List Event) (value : α)
  | stop (trace : List Event) (status : Status)
  deriving DecidableEq, Repr

/-- Sequencing of runs: a stopped process executes nothing further. -/
def Run.bind {α β : Type} (r : Run α) (f : α → Run β) : Run β :=
  match r with
  | .stop t st => .stop t st
  | .ret t a =>
    match f a with
    | .ret t1 b => .ret (t ++ t1) b
    | .stop t1 st => .stop (t ++ t1) st

instance : Monad Run where
  pure a := .ret [] a
  bind := Run.bind

/-- The events of a run. -/
def Run.trace {α : Type} : Run α → List Event
  | .ret t _ => t
  | .stop t _ => t

/-- Whether the code returned to its caller, the process still being the same program. -/
def Run.returned {α : Type} : Run α → Bool
  | .ret _ _ => true
  | .stop _ _ => false

/-- The answers of the operating system to the process that is followed. -/
structure OS where
  pipeRet : Int
  forkRet : Int
  openRet : Ptr → Int
  execOk : CStr → Bool
  chdirRet : Int
  cwd : Ptr
  notices : List Notice

/-- Record one event. -/
def emit (e : Event) : Run Unit := .ret [e] ()

/-- Undefined behaviour ends the run. -/
def undefinedBehaviour {α : Type} : Run α := .stop [] .undefined

/-- The read `a[i]`; outside the array it is undefined behaviour. -/
def load (a : List Ptr) (i : Int) : Run Ptr :=
  if 0 ≤ i then
    match a[i.toNat]? with
    | some p => pure p
    | none => undefinedBehaviour
  else undefinedBehaviour

/-- The write `a[i] = v`; outside the array it is undefined behaviour. -/
def storeAt (a : List Ptr) (i : Int) (v : Ptr) : Run (List Ptr) :=
  if 0 ≤ i then
    match store a i.toNat v with
    | some b => pure b
    | none => undefinedBehaviour
  else undefinedBehaviour

/-- The test `strcmp(p, s) == 0`; on a null `p` it is undefined behaviour. -/
def strcmp0 (p : Ptr) (s : String) : Run Bool :=
  match p with
  | none => undefinedBehaviour
  | some a => pure (decide (a = s.toList))

/-- The strings of an argument vector: the slots before the first `NULL`. -/
def argvOf (a : List Ptr) : List CStr :=
  match a with
  | some s :: rest => s :: argvOf rest
  | _ => []

/-- The call `fork()`: its return value in the process that is followed. -/
def sys_fork (os : OS) : Run Int := .ret [.fork os.forkRet] os.forkRet

/-- The call `pipe(pipefd)`. -/
def sys_pipe (os : OS) : Run Int := .ret [.pipe os.pipeRet] os.pipeRet

/-- The call `open(path, O_RDONLY)`. -/
def sys_open_read (os : OS) (path : Ptr) : Run Int :=
  .ret [.openRead path (os.openRet path)] (os.openRet path)

/-- The call `open(path, O_WRONLY | O_CREAT | O_TRUNC, 0644)`. -/
def sys_open_write (os : OS) (path : Ptr) : Run Int :=
  .ret [.openWrite path (os.openRet path)] (os.openRet path)

/-- The call `execvp(file, argv)`: on success the image is replaced and nothing after the call
runs; on failure it returns `-1`; a null `file` is undefined behaviour. -/
def sys_execvp (os : OS) (file : Ptr) (argv : List Ptr) : Run Int :=
  match file with
  | none => .stop [.execvp none (argvOf argv)] .undefined
  | some f =>
    if os.execOk f then .stop [.execvp (some f) (argvOf argv)] .replaced
    else .ret [.execvp (some f) (argvOf argv)] (-1)

/-- The call `exit(code)`. -/
def sys_exit {α : Type} (code : Int) : Run α := .stop [.exit code] (.exited code)

/-! ## shell.c -/

namespace Shell

/-- The constant `MAX_COMMAND_LINE_ARGS` of shell.c. -/
def MAX_COMMAND_LINE_ARGS : Nat := 128

/-- The global `delimiters` of shell.c: space, tab, carriage return, newline. -/
def delimiters : List Char := [' ', '\t', '\r', '\n']

/-- The tokenizer loop of `main`, at its head: `arguments[i]` has just been stored and `saved` is
the `strtok` position.  The loop runs at most `MAX_COMMAND_LINE_ARGS - 1` times, which `fuel`
covers; `none` is an access outside the array (or no fuel left). -/
def tokenize_loop : Nat → CStr → List Ptr → Nat → Option (List Ptr × Nat)
  | 0, _, _, _ => none
  | fuel + 1, saved, arguments, i =>
    match arguments[i]? with
    | none => none
    | some none => some (arguments, i)
    | some (some _) =>
      if i < MAX_COMMAND_LINE_ARGS - 1 then
        (store arguments (i + 1) (strtok delimiters saved).1).bind
          (fun a => tokenize_loop fuel (strtok delimiters saved).2 a (i + 1))
      else some (arguments, i)

/-- The tokenizer of `main`: the array after the loop and the final value of `i`. -/
def tokenize (command_line : CStr) (arguments : List Ptr) : Option (List Ptr × Nat) :=
  (store arguments 0 (strtok delimiters command_line).1).bind
    (fun a => tokenize_loop MAX_COMMAND_LINE_ARGS (strtok delimiters command_line).2 a 0)

/-- The function `change_directory(path)`. -/
def change_directory (os : OS) (path : Ptr) : Run Unit :=
  match path with
  | none => emit (.printf "No path specified for cd\n" [] [])
  | some p => do
    emit (.chdir (some p))
    if os.chdirRet ≠ 0 then emit (.perror "cd failed") else pure ()

/-- The function `print_env()`: one line per entry of `environ`. -/
def print_env (environ : Env) : Run Unit :=
  match environ with
  | [] => pure ()
  | (n, v) :: rest => do
    emit (.printf "%s\n" [] [n ++ ['='] ++ v])
    print_env rest

/-- The function `set_env_var(name, value)`: `setenv` rejects a null name; a null value with a
valid name is dereferenced by the library. -/
def set_env_var (environ : Env) (name value : Ptr) : Run Env := do
  emit (.setenv name value)
  match name, value with
  | none, _ => do
    emit (.perror "setenv failed")
    pure environ
  | some n, none =>
    match setenv environ n [] with
    | none => do
      emit (.perror "setenv failed")
      pure environ
    | some _ => undefinedBehaviour
  | some n, some v =>
    match setenv environ n v with
    | none => do
      emit (.perror "setenv failed")
      pure environ
    | some e => pure e

/-- The records of the operator scan: `redirect_in`, `redirect_out`, `pipe_pos`. -/
structure Positions where
  redirect_in : Int
  redirect_out : Int
  pipe_pos : Int
  deriving DecidableEq, Repr

/-- The body of the operator scan of `main` for one value of `j`. -/
def operator_scan_step (arguments : List Ptr) (p : Positions) (j : Nat) : Run Positions := do
  let a ← load arguments j
  if (← strcmp0 a "<") then pure { p with redirect_in := j }
  else if (← strcmp0 a ">") then pure { p with redirect_out := j }
  else if (← strcmp0 a "|") then pure { p with pipe_pos := j }
  else pure p

/-- The loop `for (j = ...; j < i; j++)` with `n` iterations left. -/
def operator_scan_from (arguments : List Ptr) : Nat → Nat → Positions → Run Positions
  | 0, _, p => pure p
  | n + 1, j, p => do
    let p1 ← operator_scan_step arguments p j
    operator_scan_from arguments n (j + 1) p1

/-- The operator scan of `main`: `redirect_in = redirect_out = pipe_pos = -1`, then the loop
over `j = 0 .. i - 1`. -/
def operator_scan (arguments : List Ptr) (i : Nat) : Run Positions :=
  operator_scan_from arguments i 0 ⟨-1, -1, -1⟩

/-- The `if (pipe_pos != -1)` block of `execute_command`. -/
def pipe_block (os : OS) (arguments : List Ptr) (pipe_pos : Int) : Run (List Ptr) := do
  if pipe_pos ≠ -1 then
    let arguments ← storeAt arguments pipe_pos none
    let r ← sys_pipe os
    if r = -1 then
      emit (.perror "pipe failed")
      sys_exit 1
    else
      let pipe_pid ← sys_fork os
      if pipe_pid = 0 then
        emit (.close .pipeRead)
        emit (.dup2 .pipeWrite .stdout)
        emit (.close .pipeWrite)
        let file ← load arguments 0
        let _ ← sys_execvp os file arguments
        emit (.perror "execvp failed")
        sys_exit 1
      else
        emit .wait
        emit (.close .pipeWrite)
        emit (.dup2 .pipeRead .stdin)
        emit (.close .pipeRead)
        let file ← load arguments (pipe_pos + 1)
        let _ ← sys_execvp os file (arguments.drop (pipe_pos + 1).toNat)
        emit (.perror "execvp failed")
        sys_exit 1
  else pure arguments

/-- The `if (redirect_in != -1)` block in the child of `execute_command`. -/
def redirect_in_block (os : OS) (arguments : List Ptr) (redirect_in : Int) :
    Run (List Ptr) := do
  if redirect_in ≠ -1 then
    let path ← load arguments (redirect_in + 1)
    let fd_in ← sys_open_read os path
    if fd_in = -1 then
      emit (.perror "open for input failed")
      sys_exit 1
    else
      emit (.dup2 (.file fd_in) .stdin)
      emit (.close (.file fd_in))
      storeAt arguments redirect_in none
  else pure arguments

/-- The `if (redirect_out != -1)` block in the child of `execute_command`. -/
def redirect_out_block (os : OS) (arguments : List Ptr) (redirect_out : Int) :
    Run (List Ptr) := do
  if redirect_out ≠ -1 then
    let path ← load arguments (redirect_out + 1)
    let fd_out ← sys_open_write os path
    if fd_out = -1 then
      emit (.perror "open for output failed")
      sys_exit 1
    else
      emit (.dup2 (.file fd_out) .stdout)
      emit (.close (.file fd_out))
      storeAt arguments redirect_out none
  else pure arguments

/-- The function `execute_command` of shell.c, in the process where `fork` returns
`os.forkRet`; the value is the `arguments` array as the caller finds it on return. -/
def execute_command (os : OS) (arguments : List Ptr) (redirect_in redirect_out pipe_pos : Int)
    (background : Bool) : Run (List Ptr) := do
  let arguments ← pipe_block os arguments pipe_pos
  let pid ← sys_fork os
  if pid = 0 then
    let arguments ← redirect_in_block os arguments redirect_in
    let arguments ← redirect_out_block os arguments redirect_out
    let file ← load arguments 0
    let _ ← sys_execvp os file arguments
    emit (.perror "execvp failed")
    sys_exit 1
  else if pid > 0 then
    if !background then emit (.waitpid pid) else pure ()
    pure arguments
  else
    emit (.perror "fork failed")
    pure arguments

/-- The part of the loop body of `main` for a line that is not a built-in: the background check,
the operator scan and the call of `execute_command`. -/
def launch (os : OS) (arguments : List Ptr) (i : Nat) : Run (List Ptr) := do
  let last ← load arguments (i - 1 : Int)
  let background ← strcmp0 last "&"
  let arguments ← if background then storeAt arguments (i - 1 : Int) none else pure arguments
  let p ← operator_scan arguments i
  execute_command os arguments p.redirect_in p.redirect_out p.pipe_pos background

/-- One iteration of the `while (true)` loop of `main` after a line has been read into
`command_line`: the `arguments` array and the environment as the next iteration finds them. -/
def main_iteration (os : OS) (environ : Env) (arguments : List Ptr) (command_line : CStr) :
    Run (List Ptr × Env) :=
  match tokenize command_line arguments with
  | none => undefinedBehaviour
  | some (arguments, i) => do
    let a0 ← load arguments 0
    if a0 = none then pure (arguments, environ)
    else if (← strcmp0 a0 "cd") then
      change_directory os (← load arguments 1)
      pure (arguments, environ)
    else if (← strcmp0 a0 "pwd") then
      emit (.printf "%s\n" [] (argvOf [os.cwd]))
      pure (arguments, environ)
    else if (← strcmp0 a0 "exit") then sys_exit 0
    else if (← strcmp0 a0 "env") then
      print_env environ
      pure (arguments, environ)
    else if (← strcmp0 a0 "setenv") then
      let e ← set_env_var environ (← load arguments 1) (← load arguments 2)
      pure (arguments, e)
    else
      let arguments ← launch os arguments i
      pure (arguments, environ)

end Shell

/-- Answers of the operating system in the interpreter process: `fork` returns the child's pid
`4242`, `open` yields descriptor 3 for every path and fails on a null pointer, every `exec`
succeeds. -/
def osParent : OS :=
  { pipeRet := 0, forkRet := 4242, openRet := fun p => if p.isSome then 3 else -1,
    execOk := fun _ => true,
    chdirRet := 0, cwd := some "/".toList, notices := [] }

/-- The same answers in the child process, where `fork` returns `0`. -/
def osChild : OS := { osParent with forkRet := 0 }

/-- An `arguments` array of shell.c with every slot null. -/
def emptyArguments : List Ptr := List.replicate Shell.MAX_COMMAND_LINE_ARGS none

/-! ## shell2.c -/

namespace Shell2

/-- The constant `MAX_ARGS` of shell2.c. -/
def MAX_ARGS : Nat := 100

/-- The constant `TIMEOUT_SECONDS` of shell2.c. -/
def TIMEOUT_SECONDS : Nat := 10

/-- The `while (token != NULL)` loop of `parse_input`, entered with the saved `strtok` position
`saved`, the array `args` and the index `i`.  Each iteration consumes at least one character of
the line, so `fuel` bounds the number of iterations; `none` is an out-of-bounds store (or no fuel
left). -/
def parse_input_loop (env : Env) : Nat → CStr → List Ptr → Nat → Option (List Ptr × Nat)
  | 0, _, _, _ => none
  | fuel + 1, saved, args, i =>
    match strtok [' '] saved with
    | (none, _) => (store args i none).map (fun a => (a, i))
    | (some token, saved1) =>
      if token.head? = some '$' then
        match getenv env token.tail with
        | some env_value =>
          (store args i (some env_value)).bind (fun a => parse_input_loop env fuel saved1 a (i + 1))
        | none => parse_input_loop env fuel saved1 args i
      else
        (store args i (some token)).bind (fun a => parse_input_loop env fuel saved1 a (i + 1))

/-- The function `parse_input(input, args)`: the array after the call and the returned count. -/
def parse_input (env : Env) (input : CStr) (args : List Ptr) : Option (List Ptr × Nat) :=
  parse_input_loop env (input.length + 1) input args 0

/-- The call `alarm(seconds)`: `alarm(0)` cancels the pending alarm, any other value replaces
it. -/
def sys_alarm (s : ShellState) (seconds : Nat) : Run ShellState := do
  emit (.alarm seconds)
  pure { s with alarm := if seconds = 0 then none else some seconds }

/-- The function `sigint_handler`. -/
def sigint_handler (s : ShellState) : Run ShellState := do
  emit (.printf "\nCaught SIGINT, continuing shell...\n" [] [])
  if s.foreground_pid > 0 then emit (.kill s.foreground_pid .SIGINT) else pure ()
  pure s

/-- The function `timer_handler`. -/
def timer_handler (s : ShellState) : Run ShellState := do
  if s.foreground_pid > 0 then
    emit (.printf "\nTimeout reached. Killing foreground process (PID: %d). \n"
      [s.foreground_pid] [])
    emit (.kill s.foreground_pid .SIGKILL)
    pure { s with foreground_pid := -1 }
  else pure s

/-- The function `setup_timer`. -/
def setup_timer (s : ShellState) : Run ShellState := sys_alarm s TIMEOUT_SECONDS

/-- The function `cancel_timer`. -/
def cancel_timer (s : ShellState) : Run ShellState := sys_alarm s 0

/-- Delivery of one asynchronous notice to the interpreter, with the handlers `main` installs:
an interrupt runs `sigint_handler`; the expiry of a pending alarm clears it and runs
`timer_handler`. -/
def deliver (s : ShellState) : Notice → Run ShellState
  | .interrupt => sigint_handler s
  | .alarmExpired =>
    if s.alarm.isSome then timer_handler { s with alarm := none } else pure s

/-- Delivery of a sequence of notices, in order. -/
def deliverAll (s : ShellState) : List Notice → Run ShellState
  | [] => pure s
  | n :: rest => do
    let s1 ← deliver s n
    deliverAll s1 rest

/-- The call `waitpid(pid, &status, 0)`: the interpreter blocks, the notices of `os` arrive
while it is blocked, and the call returns once the child is gone. -/
def sys_waitpid (os : OS) (pid : Int) (s : ShellState) : Run ShellState := do
  emit (.blocked pid s)
  deliverAll s os.notices

/-- The parent branch shared by `execute_command` and `execute_with_redirection`. -/
def parent_branch (os : OS) (s : ShellState) (pid : Int) (background : Int) :
    Run ShellState := do
  if background = 0 then
    let s := { s with foreground_pid := pid }
    let s ← setup_timer s
    let s ← sys_waitpid os pid s
    let s ← cancel_timer s
    pure { s with foreground_pid := -1 }
  else
    emit (.printf "Background process PID: %d\n" [pid] [])
    pure s

/-- The function `execute_command` of shell2.c, in the process where `fork` returns
`os.forkRet`. -/
def execute_command (os : OS) (s : ShellState) (args : List Ptr) (background : Int) :
    Run ShellState := do
  let pid ← sys_fork os
  if pid = -1 then
    emit (.perror "fork failed")
    pure s
  else if pid = 0 then
    let file ← load args 0
    let r ← sys_execvp os file args
    if r = -1 then
      emit (.perror "execvp failed")
      sys_exit 1
    else pure s
  else parent_branch os s pid background

/-- The function `execute_with_redirection`, in the process where `fork` returns
`os.forkRet`. -/
def execute_with_redirection (os : OS) (s : ShellState) (args : List Ptr) (background : Int)
    (is_input_redirect is_output_redirect : Int) : Run ShellState := do
  let pid ← sys_fork os
  if pid = -1 then
    emit (.perror "fork failed")
    pure s
  else if pid = 0 then
    let redirect_index : Int := if is_input_redirect ≠ 0 then 1 else 2
    let args ←
      if is_input_redirect ≠ 0 then do
        let path ← load args redirect_index
        let input_fd ← sys_open_read os path
        if input_fd = -1 then
          emit (.perror "Input file open failed")
          sys_exit 1
        else
          emit (.dup2 (.file input_fd) .stdin)
          emit (.close (.file input_fd))
          storeAt args (redirect_index - 1) none
      else pure args
    let args ←
      if is_output_redirect ≠ 0 then do
        let path ← load args redirect_index
        let output_fd ← sys_open_write os path
        if output_fd = -1 then
          emit (.perror "Output file open failed")
          sys_exit 1
        else
          emit (.dup2 (.file output_fd) .stdout)
          emit (.close (.file output_fd))
          storeAt args (redirect_index - 1) none
      else pure args
    let file ← load args 0
    let r ← sys_execvp os file args
    if r = -1 then
      emit (.perror "execvp failed")
      sys_exit 1
    else pure s
  else parent_branch os s pid background

/-- The locals of `handle_io_redirection` after its loop. -/
structure Redirection where
  input_redirect : Int
  output_redirect : Int
  input_index : Int
  output_index : Int
  deriving DecidableEq, Repr

/-- The loop `for (i = ...; args[i] != NULL; i++)` of `handle_io_redirection`, which leaves at
the first `<` or `>`.  Reading past the array is undefined behaviour, so the loop runs at most
once per slot, which `fuel` covers. -/
def redirection_scan (args : List Ptr) : Nat → Nat → Run Redirection
  | 0, _ => undefinedBehaviour
  | fuel + 1, i => do
    let a ← load args i
    if a = none then pure ⟨0, 0, -1, -1⟩
    else if (← strcmp0 a "<") then pure ⟨1, 0, i, -1⟩
    else if (← strcmp0 a ">") then pure ⟨0, 1, -1, i⟩
    else redirection_scan args fuel (i + 1)

/-- The function `handle_io_redirection`; `input_index` and `output_index` are set by the loop
and not read afterwards. -/
def handle_io_redirection (os : OS) (s : ShellState) (args : List Ptr) (background : Int) :
    Run ShellState := do
  let r ← redirection_scan args (args.length + 1) 0
  if r.input_redirect ≠ 0 ∨ r.output_redirect ≠ 0 then
    execute_with_redirection os s args background r.input_redirect r.output_redirect
  else pure s

/-- The function `builtin_echo`. -/
def builtin_echo (env : Env) : List Ptr → Run Unit
  | [] => undefinedBehaviour
  | none :: _ => emit (.printf "\n" [] [])
  | some a :: rest => do
    if a.head? = some '$' then
      match getenv env a.tail with
      | some env_value => emit (.printf "%s " [] [env_value])
      | none => pure ()
    else emit (.printf "%s " [] [a])
    builtin_echo env rest

/-- The loop of `builtin_env` that prints every entry of `environ`. -/
def print_environ : Env → Run Unit
  | [] => pure ()
  | (n, v) :: rest => do
    emit (.printf "%s\n" [] [n ++ ['='] ++ v])
    print_environ rest

/-- The function `builtin_env`. -/
def builtin_env (env : Env) (args : List Ptr) : Run Unit := do
  let a ← load args 0
  match a with
  | none => print_environ env
  | some name =>
    match getenv env name with
    | some env_value => emit (.printf "%s\n" [] [env_value])
    | none => pure ()

/-- The function `builtin_setenv`: the environment after the call. -/
def builtin_setenv (env : Env) (args : List Ptr) : Run Env := do
  let a0 ← load args 0
  match a0 with
  | none => do
    emit (.printf "Usage : setenv VARIABLE VALUE\n" [] [])
    pure env
  | some name =>
    let a1 ← load args 1
    match a1 with
    | none => do
      emit (.printf "Usage : setenv VARIABLE VALUE\n" [] [])
      pure env
    | some value =>
      emit (.setenv (some name) (some value))
      match setenv env name value with
      | some e => pure e
      | none => do
        emit (.perror "setenv")
        pure env

/-- The statement `input[strcspn(input, "\n")] = 0`: the line up to its first newline. -/
def strip_newline (input : CStr) : CStr :=
  input.takeWhile (fun c => c ≠ '\n')

/-- Lines 60 to 68 of `main`: the line is cut at its first newline, the background flag is set
when the last character is `&`, and that character is then removed.  On an empty line the test
reads `input[-1]`, outside the buffer. -/
def background_check (input : CStr) : Option (Int × CStr) :=
  let input := strip_newline input
  match input.getLast? with
  | none => none
  | some c => if c = '&' then some (1, input.dropLast) else some (0, input)

/-- One iteration of the `while (1)` loop of `main` after `fgets` has filled `input`.  `os1`
answers the calls made inside `handle_io_redirection`, `os2` those made inside
`execute_command`.  The value is the state the next iteration starts from. -/
def main_iteration (os1 os2 : OS) (s : ShellState) (env : Env) (args : List Ptr)
    (input : CStr) : Run (ShellState × Env × List Ptr) :=
  match background_check input with
  | none => undefinedBehaviour
  | some (background, input) =>
    match parse_input env input args with
    | none => undefinedBehaviour
    | some (args, num_args) =>
      if num_args = 0 then pure (s, env, args)
      else do
        let a0 ← load args 0
        if (← strcmp0 a0 "exit") then .stop [] (.exited 0)
        else if (← strcmp0 a0 "cd") then
          let a1 ← load args 1
          let path := if a1.isSome then a1 else getenv env "HOME".toList
          emit (.chdir path)
          if os1.chdirRet ≠ 0 then emit (.perror "cd") else pure ()
          pure (s, env, args)
        else if (← strcmp0 a0 "pwd") then
          match os1.cwd with
          | some cwd => emit (.printf "%s\n" [] [cwd])
          | none => emit (.perror "pwd")
          pure (s, env, args)
        else if (← strcmp0 a0 "echo") then
          builtin_echo env (args.drop 1)
          pure (s, env, args)
        else if (← strcmp0 a0 "env") then
          builtin_env env (args.drop 1)
          pure (s, env, args)
        else if (← strcmp0 a0 "setenv") then
          let e ← builtin_setenv env (args.drop 1)
          pure (s, e, args)
        else
          let s ← handle_io_redirection os1 s args background
          let s ← execute_command os2 s args background
          pure (s, env, args)

end Shell2

/-- An `args` array of shell2.c with every slot null. -/
def emptyArgs : List Ptr := List.replicate Shell2.MAX_ARGS none

/-- The state of the interpreter between commands: no foreground job, no alarm pending. -/
def idle : ShellState := { foreground_pid := -1, alarm := none }

/-! ## The specification's words -/

namespace Spec

/-- The non-empty space-separated tokens of a line, in order. -/
def tokens (line : CStr) : List CStr :=
  (line.splitOn ' ').filter (fun t => t ≠ [])

/-- One token after variable substitution: `$NAME` becomes the value of `NAME` when it is set and
is dropped when it is not; every other token is kept. -/
def expandToken (env : Env) (t : CStr) : Option CStr :=
  match t with
  | '$' :: name => getenv env name
  | _ => some t

/-- The argument vector the tokenizer contract describes. -/
def expand (env : Env) (line : CStr) : List CStr :=
  (tokens line).filterMap (expandToken env)

/-- The index `k` is that of the last slot of `v` holding `t`, or `-1` when no slot holds it. -/
def IsLastIndex (v : List CStr) (t : CStr) (k : Int) : Prop :=
  (k = -1 ∧ t ∉ v) ∨ (∃ n : Nat, k = n ∧ v[n]? = some t ∧ ∀ m, n < m → v[m]? ≠ some t)

end Spec

/-- Invariant of the operator scan: the three records are the last indices of the three operators among the slots scanned. -/
def ScanInv (u : List CStr) (p : Shell.Positions) : Prop :=
  Spec.IsLastIndex u "<".toList p.redirect_in ∧
  Spec.IsLastIndex u ">".toList p.redirect_out ∧
  Spec.IsLastIndex u "|".toList p.pipe_pos

/-! ## Sequencing of runs -/

theorem Run.pure_def {α : Type} (a : α) : (pure a : Run α) = .ret [] a := rfl

theorem Run.bind_def {α β : Type} (r : Run α) (f : α → Run β) : r >>= f = Run.bind r f := rfl

theorem Run.ret_bind {α β : Type} (t : List Event) (a : α) (f : α → Run β) :
    Run.bind (.ret t a) f =
      (match f a with
        | .ret t1 b => .ret (t ++ t1) b
        | .stop t1 st => .stop (t ++ t1) st) := rfl

theorem Run.nil_bind {α β : Type} (a : α) (f : α → Run β) : Run.bind (.ret [] a) f = f a := by
  rw [Run.ret_bind]
  cases f a <;> simp

theorem Run.pure_bind' {α β : Type} (a : α) (f : α → Run β) : (pure a : Run α) >>= f = f a :=
  Run.nil_bind a f

/-- A run that has stopped stays stopped whatever follows. -/
theorem Run.returned_bind_left {α β : Type} (r : Run α) (f : α → Run β)
    (h : r.returned = false) : (r >>= f).returned = false := by
  cases r with
  | stop t st => rfl
  | ret t a => simp [Run.returned] at h

/-- A run followed by code that never returns never returns. -/
theorem Run.returned_bind_right {α β : Type} (r : Run α) (f : α → Run β)
    (h : ∀ a, (f a).returned = false) : (r >>= f).returned = false := by
  cases r with
  | stop t st => rfl
  | ret t a =>
    have := h a
    rw [Run.bind_def, Run.ret_bind]
    cases hf : f a with
    | ret t1 b => rw [hf] at this; simp [Run.returned] at this
    | stop t1 st => rfl

/-! ## shell2.c: the tokenizer -/

theorem isDelim_space (c : Char) : ([' '].contains c) = decide (c = ' ') := by
  by_cases h : c = ' '
  · subst h
    rfl
  · have hb : (c == ' ') = false := by simpa using h
    simp [List.contains, List.elem, hb, h]

theorem tokens_nil : Spec.tokens [] = [] := by
  simp [Spec.tokens, List.splitOn, List.splitOnP_nil]

theorem tokens_space (s : CStr) : Spec.tokens (' ' :: s) = Spec.tokens s := by
  simp [Spec.tokens, List.splitOn, List.splitOnP_cons]

theorem tokens_dropSpaces (s : CStr) :
    Spec.tokens (s.dropWhile (fun c => [' '].contains c)) = Spec.tokens s := by
  induction s with
  | nil => rfl
  | cons c cs ih =>
    by_cases h : c = ' '
    · subst h
      rw [List.dropWhile_cons_of_pos (by simp), ih, tokens_space]
    · rw [List.dropWhile_cons_of_neg (by simp [isDelim_space, h])]

theorem tokens_char (c : Char) (s : CStr) (h : c ≠ ' ') :
    Spec.tokens (c :: s) =
      (c :: s.takeWhile (fun d => !([' '].contains d))) ::
        Spec.tokens ((s.dropWhile (fun d => !([' '].contains d))).drop 1) := by
  have hsplit := List.takeWhile_append_dropWhile (fun d => !([' '].contains d)) s
  have htw : ∀ x ∈ c :: s.takeWhile (fun d => !([' '].contains d)), ¬ ((fun x => x == ' ') x = true) := by
    intro x hx
    rcases List.mem_cons.mp hx with rfl | hx
    · simpa using h
    · have := List.mem_takeWhile_imp hx
      simpa [isDelim_space] using this
  cases hd : s.dropWhile (fun d => !([' '].contains d)) with
  | nil =>
    rw [hd, List.append_nil] at hsplit
    rw [hsplit] at htw ⊢
    simp only [Spec.tokens, List.splitOn, List.drop_nil]
    rw [List.splitOnP_eq_single _ _ htw]
    simp [List.splitOnP_nil]
  | cons d r =>
    have hdsp : d = ' ' := by
      have := List.head_dropWhile_not (fun d => !([' '].contains d)) s (by rw [hd]; simp)
      simp only [hd, List.head_cons] at this
      simpa [isDelim_space] using this
    subst hdsp
    rw [hd] at hsplit
    have : c :: s = (c :: s.takeWhile (fun d => !([' '].contains d))) ++ ' ' :: r := by
      rw [List.cons_append, hsplit]
    simp only [Spec.tokens, List.splitOn, List.drop_succ_cons, List.drop_zero]
    rw [this, List.splitOnP_first _ _ htw ' ' (by simp)]
    simp

/-- What one `strtok` call returns, against the token list of the specification. -/
theorem strtok_tokens (s : CStr) :
    (strtok [' '] s = (none, []) ∧ Spec.tokens s = []) ∨
    (∃ tok rest, strtok [' '] s = (some tok, rest) ∧ Spec.tokens s = tok :: Spec.tokens rest ∧
      rest.length < s.length) := by
  unfold strtok
  cases hd : s.dropWhile (fun c => [' '].contains c) with
  | nil =>
    left
    refine ⟨rfl, ?_⟩
    rw [← tokens_dropSpaces, hd, tokens_nil]
  | cons c cs =>
    right
    have hc : c ≠ ' ' := by
      have := List.head_dropWhile_not (fun c => [' '].contains c) s (by rw [hd]; simp)
      simp only [hd, List.head_cons] at this
      simpa [isDelim_space] using this
    refine ⟨_, _, rfl, ?_, ?_⟩
    · rw [← tokens_dropSpaces, hd, tokens_char c cs hc]
    · have h1 : (c :: cs).length ≤ s.length := by
        rw [← hd]
        exact (List.dropWhile_sublist _).length_le
      have h2 : (cs.dropWhile (fun d => !([' '].contains d))).length ≤ cs.length :=
        (List.dropWhile_sublist _).length_le
      simp only [List.length_drop, List.length_cons] at h1 ⊢
      omega

theorem expandToken_eq (env : Env) (t : CStr) :
    Spec.expandToken env t = if t.head? = some '$' then getenv env t.tail else some t := by
  unfold Spec.expandToken
  split
  · simp
  · rename_i h
    cases t with
    | nil => simp
    | cons c cs =>
      have : c ≠ '$' := fun hc => h cs (by rw [hc])
      simp [this]

theorem store_of_lt (a : List Ptr) (i : Nat) (v : Ptr) (h : i < a.length) :
    store a i v = some (a.set i v) := by
  simp [store, h]

theorem take_succ_set {α : Type} (a : List α) (i : Nat) (x : α) (h : i < a.length) :
    (a.set i x).take (i + 1) = a.take i ++ [x] := by
  induction a generalizing i with
  | nil => simp at h
  | cons y ys ih =>
    cases i with
    | zero => simp
    | succ j =>
      simp only [List.length_cons, Nat.add_lt_add_iff_right] at h
      simp [ih j h]

theorem take_set_self {α : Type} (a : List α) (i : Nat) (x : α) :
    (a.set i x).take i = a.take i := by
  induction a generalizing i with
  | nil => simp
  | cons y ys ih =>
    cases i with
    | zero => simp
    | succ j => simp [ih j]

theorem expand_of_tokens (env : Env) (s : CStr) (tok : CStr) (rest : CStr)
    (h : Spec.tokens s = tok :: Spec.tokens rest) :
    Spec.expand env s =
      (match Spec.expandToken env tok with
        | some v => v :: Spec.expand env rest
        | none => Spec.expand env rest) := by
  unfold Spec.expand
  rw [h, List.filterMap_cons]
  cases Spec.expandToken env tok <;> rfl

/-- One store followed by the rest of the loop, as used twice in the loop body. -/
theorem take_after_store (args a : List Ptr) (i k : Nat) (v : CStr) (l : List CStr)
    (hi : i < args.length)
    (h : a.take (i + 1 + k) = (args.set i (some v)).take (i + 1) ++ l.map some) :
    a.take (i + (k + 1)) = args.take i ++ (v :: l).map some := by
  rw [take_succ_set args i _ hi] at h
  have : i + (k + 1) = i + 1 + k := by omega
  rw [this, h]
  simp

theorem parse_input_loop_spec (env : Env) :
    ∀ (fuel : Nat) (saved : CStr) (args : List Ptr) (i : Nat),
      saved.length < fuel → i + (Spec.tokens saved).length < args.length →
      ∃ a, Shell2.parse_input_loop env fuel saved args i
            = some (a, i + (Spec.expand env saved).length) ∧
        a.length = args.length ∧
        a.take (i + (Spec.expand env saved).length)
            = args.take i ++ (Spec.expand env saved).map some ∧
        a[i + (Spec.expand env saved).length]? = some none := by
  intro fuel
  induction fuel with
  | zero => intro saved args i h; omega
  | succ fuel ih =>
    intro saved args i hfuel hroom
    rcases strtok_tokens saved with ⟨hs, ht⟩ | ⟨tok, rest, hs, ht, hlen⟩
    · have hi : i < args.length := by omega
      have he : Spec.expand env saved = [] := by simp [Spec.expand, ht]
      refine ⟨args.set i none, ?_, by simp, ?_, ?_⟩
      · simp [Shell2.parse_input_loop, hs, store_of_lt args i none hi, he]
      · simp [he, take_set_self]
      · simp [he, hi]
    · rw [ht, List.length_cons] at hroom
      have hi : i < args.length := by omega
      have hexp := expand_of_tokens env saved tok rest ht
      rw [expandToken_eq] at hexp
      unfold Shell2.parse_input_loop
      simp only [hs]
      by_cases hd : tok.head? = some '$'
      · simp only [hd, if_true] at hexp ⊢
        cases hg : getenv env tok.tail with
        | none =>
          simp only [hg] at hexp ⊢
          rw [hexp]
          exact ih rest args i (by omega) (by omega)
        | some v =>
          simp only [hg] at hexp ⊢
          obtain ⟨a, h1, h2, h3, h4⟩ :=
            ih rest (args.set i (some v)) (i + 1) (by omega) (by simp; omega)
          have hk : i + (Spec.expand env saved).length
              = i + 1 + (Spec.expand env rest).length := by rw [hexp, List.length_cons]; omega
          refine ⟨a, ?_, by simpa using h2, ?_, ?_⟩
          · rw [store_of_lt args i _ hi, hk, ← h1]; rfl
          · rw [hexp, List.length_cons]
            exact take_after_store args a i _ v _ hi h3
          · rw [hk]; exact h4
      · simp only [hd, if_false] at hexp ⊢
        obtain ⟨a, h1, h2, h3, h4⟩ :=
          ih rest (args.set i (some tok)) (i + 1) (by omega) (by simp; omega)
        have hk : i + (Spec.expand env saved).length
            = i + 1 + (Spec.expand env rest).length := by rw [hexp, List.length_cons]; omega
        refine ⟨a, ?_, by simpa using h2, ?_, ?_⟩
        · rw [store_of_lt args i _ hi, hk, ← h1]; rfl
        · rw [hexp, List.length_cons]
          exact take_after_store args a i _ tok _ hi h3
        · rw [hk]; exact h4

theorem getenv_map_set (env : Env) (name value : CStr) (h : (getenv env name).isSome = true) :
    getenv (env.map (fun e => if e.1 = name then (name, value) else e)) name = some value := by
  induction env with
  | nil => simp [getenv] at h
  | cons e rest ih =>
    obtain ⟨n, v⟩ := e
    by_cases hn : n = name
    · subst hn
      show getenv ((if n = n then (n, value) else (n, v)) :: _) n = _
      rw [if_pos rfl]
      simp [getenv]
    · simp only [getenv, hn, if_false] at h
      show getenv ((if n = name then (name, value) else (n, v)) :: _) name = _
      rw [if_neg hn]
      simp only [getenv, hn, if_false]
      exact ih h

theorem getenv_append_new (env : Env) (name value : CStr) (h : getenv env name = none) :
    getenv (env ++ [(name, value)]) name = some value := by
  induction env with
  | nil => simp [getenv]
  | cons e rest ih =>
    obtain ⟨n, v⟩ := e
    by_cases hn : n = name
    · simp [getenv, hn] at h
    · simp only [getenv, hn, if_false] at h
      simp [getenv, hn, ih h]

theorem getenv_setenv (env env1 : Env) (name value : CStr)
    (h : setenv env name value = some env1) : getenv env1 name = some value := by
  unfold setenv at h
  split at h
  · simp at h
  · split at h
    · rename_i hs
      cases h
      exact getenv_map_set env name value hs
    · rename_i hs
      cases h
      apply getenv_append_new
      cases hg : getenv env name with
      | none => rfl
      | some v => simp [hg] at hs

theorem parse_input_spec (env : Env) (input : CStr) (args : List Ptr)
    (hn : (Spec.tokens input).length < args.length) :
    ∃ a, Shell2.parse_input env input args = some (a, (Spec.expand env input).length) ∧
      a.take (Spec.expand env input).length = (Spec.expand env input).map some ∧
      a[(Spec.expand env input).length]? = some none := by
  obtain ⟨a, h1, _, h3, h4⟩ :=
    parse_input_loop_spec env (input.length + 1) input args 0 (by omega) (by omega)
  simp only [Nat.zero_add, List.take_zero, List.nil_append] at h1 h3 h4
  exact ⟨a, h1, h3, h4⟩

/-- C6: for every environment and every line with fewer than `MAX_ARGS` tokens, `parse_input`
returns; the slots before the returned count are the non-empty space-separated tokens of the
line, in order, with each `$NAME` replaced by the value of `NAME` when it is set and dropped
when it is not; the count is the length of that vector and the slot at the count is null.  After
`setenv FOO bar` the same holds in the new environment, where every token `$FOO` becomes
`bar`. -/
theorem parse_input_refines_tokenizer (env : Env) (input : CStr) (args : List Ptr)
    (hargs : args.length = Shell2.MAX_ARGS)
    (hn : (Spec.tokens input).length < Shell2.MAX_ARGS) :
    (∃ a, Shell2.parse_input env input args = some (a, (Spec.expand env input).length) ∧
        a.take (Spec.expand env input).length = (Spec.expand env input).map some ∧
        a[(Spec.expand env input).length]? = some none) ∧
    (∃ env1,
        Shell2.builtin_setenv env [some "FOO".toList, some "bar".toList, none] =
          .ret [.setenv (some "FOO".toList) (some "bar".toList)] env1 ∧
        Spec.expand env1 input =
          (Spec.tokens input).filterMap
            (fun t => if t = "$FOO".toList then some "bar".toList
              else Spec.expandToken env1 t) ∧
        ∃ a, Shell2.parse_input env1 input args = some (a, (Spec.expand env1 input).length) ∧
          a.take (Spec.expand env1 input).length = (Spec.expand env1 input).map some ∧
          a[(Spec.expand env1 input).length]? = some none) := by
  rw [← hargs] at hn
  refine ⟨parse_input_spec env input args hn, ?_⟩
  have hvalid : ¬ ("FOO".toList = [] ∨ '=' ∈ "FOO".toList) := by decide
  cases hs : setenv env "FOO".toList "bar".toList with
  | none =>
    unfold setenv at hs
    rw [if_neg hvalid] at hs
    split at hs <;> cases hs
  | some env1 =>
    refine ⟨env1, ?_, ?_, parse_input_spec env1 input args hn⟩
    · unfold Shell2.builtin_setenv
      have l0 : load [some "FOO".toList, some "bar".toList, none] 0
          = pure (some "FOO".toList) := rfl
      have l1 : load [some "FOO".toList, some "bar".toList, none] 1
          = pure (some "bar".toList) := rfl
      rw [l0, Run.pure_bind']
      simp only []
      rw [l1, Run.pure_bind']
      simp only [hs]
      rfl
    · unfold Spec.expand
      congr 1
      funext t
      by_cases ht : t = "$FOO".toList
      · rw [if_pos ht, ht]
        exact getenv_setenv env env1 _ _ hs
      · rw [if_neg ht]

/-- Witness of C6: the line `ls  $FOO $X -l ` in an environment where only `FOO` is set. -/
theorem parse_input_refines_tokenizer_witness :
    (∃ a, Shell2.parse_input [("FOO".toList, "old".toList)] "ls  $FOO $X -l ".toList emptyArgs =
          some (a, (Spec.expand [("FOO".toList, "old".toList)] "ls  $FOO $X -l ".toList).length) ∧
        a.take (Spec.expand [("FOO".toList, "old".toList)] "ls  $FOO $X -l ".toList).length =
          (Spec.expand [("FOO".toList, "old".toList)] "ls  $FOO $X -l ".toList).map some ∧
        a[(Spec.expand [("FOO".toList, "old".toList)] "ls  $FOO $X -l ".toList).length]? =
          some none) ∧
      Spec.expand [("FOO".toList, "old".toList)] "ls  $FOO $X -l ".toList =
        ["ls".toList, "old".toList, "-l".toList] :=
  ⟨(parse_input_refines_tokenizer [("FOO".toList, "old".toList)] "ls  $FOO $X -l ".toList
      emptyArgs (by decide) (by decide)).1, by decide⟩

/-! ## shell2.c: the background check -/

theorem splitOn_space_cons (s : CStr) :
    List.splitOn ' ' (' ' :: s) = [] :: List.splitOn ' ' s := by
  simp [List.splitOn, List.splitOnP_cons]

theorem splitOn_char_cons (c : Char) (s : CStr) (h : c ≠ ' ') :
    ∃ hd tl, List.splitOn ' ' s = hd :: tl ∧ List.splitOn ' ' (c :: s) = (c :: hd) :: tl := by
  cases hs : List.splitOn ' ' s with
  | nil => exact absurd hs (List.splitOnP_ne_nil _ s)
  | cons hd tl =>
    refine ⟨hd, tl, rfl, ?_⟩
    have hc : (c == ' ') = false := by simpa using h
    simp only [List.splitOn] at hs ⊢
    rw [List.splitOnP_cons, hs]
    simp [hc]

/-- Removing the last character of a line never adds a token. -/
theorem tokens_dropLast_length_aux (s : CStr) :
    (Spec.tokens s.dropLast).length ≤ (Spec.tokens s).length ∧
    (((List.splitOn ' ' s.dropLast).tail).filter (fun t => t ≠ [])).length ≤
      (((List.splitOn ' ' s).tail).filter (fun t => t ≠ [])).length := by
  induction s with
  | nil => simp
  | cons c x ih =>
    cases x with
    | nil =>
      simp [Spec.tokens, List.splitOn, List.splitOnP_nil]
    | cons d r =>
      rw [List.dropLast_cons₂]
      by_cases hc : c = ' '
      · subst hc
        simp only [Spec.tokens, splitOn_space_cons, List.tail_cons] at ih ⊢
        refine ⟨?_, ih.1⟩
        simpa using ih.1
      · obtain ⟨h1, t1, e1, e1c⟩ := splitOn_char_cons c (d :: r) hc
        obtain ⟨h2, t2, e2, e2c⟩ := splitOn_char_cons c (d :: r).dropLast hc
        simp only [Spec.tokens, e1, e2, e1c, e2c, List.tail_cons] at ih ⊢
        refine ⟨?_, ih.2⟩
        simp only [List.filter_cons, ne_eq, reduceCtorEq, not_false_eq_true, decide_True,
          if_true, List.length_cons]
        exact Nat.succ_le_succ ih.2

/-- C5 (as amended): for every line that is not empty once its newline is removed, the background
flag is 1 exactly when the last character of the line is `&` and 0 otherwise; when it is 1 the
line handed to `parse_input` is the line without that last character, when it is 0 it is the
unmodified line; in both cases (the line having fewer than `MAX_ARGS` tokens) the argument vector
is the tokenization of the line handed over. -/
theorem background_flag_by_last_character (env : Env) (input : CStr) (args : List Ptr)
    (hne : Shell2.strip_newline input ≠ [])
    (hargs : args.length = Shell2.MAX_ARGS)
    (hn : (Spec.tokens (Shell2.strip_newline input)).length < Shell2.MAX_ARGS) :
    ∃ background line,
      Shell2.background_check input = some (background, line) ∧
      (background = 1 ∨ background = 0) ∧
      (background = 1 ↔ (Shell2.strip_newline input).getLast? = some '&') ∧
      (background = 1 → line = (Shell2.strip_newline input).dropLast) ∧
      (background = 0 → line = Shell2.strip_newline input) ∧
      ∃ a, Shell2.parse_input env line args = some (a, (Spec.expand env line).length) ∧
        a.take (Spec.expand env line).length = (Spec.expand env line).map some ∧
        a[(Spec.expand env line).length]? = some none := by
  rw [← hargs] at hn
  unfold Shell2.background_check
  cases hl : (Shell2.strip_newline input).getLast? with
  | none =>
    rw [List.getLast?_eq_none_iff] at hl
    exact absurd hl hne
  | some c =>
    by_cases hc : c = '&'
    · subst hc
      have hlen := (tokens_dropLast_length_aux (Shell2.strip_newline input)).1
      refine ⟨1, (Shell2.strip_newline input).dropLast, by simp [hl], Or.inl rfl, by simp,
        fun _ => rfl, fun h => absurd h (by decide), ?_⟩
      exact parse_input_spec env _ args (by omega)
    · refine ⟨0, Shell2.strip_newline input, by simp [hl, hc], Or.inr rfl, ?_,
        fun h => absurd h (by decide), fun _ => rfl, parse_input_spec env _ args hn⟩
      simp [hc]

/-- Witness of C5 as amended: the line `ls&`. -/
theorem background_flag_by_last_character_witness :
    ∃ background line,
      Shell2.background_check "ls&\n".toList = some (background, line) ∧
      (background = 1 ∨ background = 0) ∧
      (background = 1 ↔ (Shell2.strip_newline "ls&\n".toList).getLast? = some '&') ∧
      (background = 1 → line = (Shell2.strip_newline "ls&\n".toList).dropLast) ∧
      (background = 0 → line = Shell2.strip_newline "ls&\n".toList) ∧
      ∃ a, Shell2.parse_input [] line emptyArgs = some (a, (Spec.expand [] line).length) ∧
        a.take (Spec.expand [] line).length = (Spec.expand [] line).map some ∧
        a[(Spec.expand [] line).length]? = some none :=
  background_flag_by_last_character [] "ls&\n".toList emptyArgs (by decide) (by decide)
    (by decide)

/-! ## shell2.c: the timer and the foreground job -/

theorem sigint_handler_returns (s : ShellState) :
    ∃ t, Shell2.sigint_handler s = .ret t s := by
  unfold Shell2.sigint_handler
  by_cases h : s.foreground_pid > 0
  · exact ⟨_, by simp only [h, if_true]; rfl⟩
  · exact ⟨_, by simp only [h, if_false]; rfl⟩

theorem timer_handler_returns (s : ShellState) :
    ∃ t s1, Shell2.timer_handler s = .ret t s1 := by
  unfold Shell2.timer_handler
  by_cases h : s.foreground_pid > 0
  · exact ⟨_, _, by simp only [h, if_true]; rfl⟩
  · exact ⟨_, _, by simp only [h, if_false]; rfl⟩

theorem deliver_returns (s : ShellState) (n : Notice) :
    ∃ t s1, Shell2.deliver s n = .ret t s1 := by
  cases n with
  | interrupt =>
    obtain ⟨t, h⟩ := sigint_handler_returns s
    exact ⟨t, s, h⟩
  | alarmExpired =>
    unfold Shell2.deliver
    by_cases h : s.alarm.isSome = true
    · simp only [h, if_true]
      exact timer_handler_returns _
    · simp only [h]
      exact ⟨[], s, rfl⟩

theorem deliverAll_returns (ns : List Notice) :
    ∀ s : ShellState, ∃ t s1, Shell2.deliverAll s ns = .ret t s1 := by
  induction ns with
  | nil => intro s; exact ⟨[], s, rfl⟩
  | cons n rest ih =>
    intro s
    obtain ⟨t, s1, h⟩ := deliver_returns s n
    obtain ⟨t2, s2, h2⟩ := ih s1
    refine ⟨t ++ t2, s2, ?_⟩
    unfold Shell2.deliverAll
    rw [h, Run.bind_def, Run.ret_bind, h2]

/-- C8: `timer_handler` invoked while `foreground_pid = p > 0` reports the timeout, sends
`SIGKILL` to process `p` and to no other, and leaves `foreground_pid = -1`; invoked while
`foreground_pid <= 0` it sends nothing and leaves the state unchanged. -/
theorem timer_handler_kills_foreground (s : ShellState) :
    (0 < s.foreground_pid →
      Shell2.timer_handler s =
        .ret [.printf "\nTimeout reached. Killing foreground process (PID: %d). \n"
                [s.foreground_pid] [],
              .kill s.foreground_pid .SIGKILL]
          { s with foreground_pid := -1 }) ∧
    (s.foreground_pid ≤ 0 → Shell2.timer_handler s = .ret [] s) := by
  constructor
  · intro h
    unfold Shell2.timer_handler
    have h1 : s.foreground_pid > 0 := h
    simp only [h1, if_true]
    rfl
  · intro h
    unfold Shell2.timer_handler
    have h1 : ¬ s.foreground_pid > 0 := by omega
    simp only [h1, if_false]
    rfl

/-- Witness of C8 at a state with foreground job 77 and at the idle state. -/
theorem timer_handler_kills_foreground_witness :
    Shell2.timer_handler ⟨77, none⟩ =
        .ret [.printf "\nTimeout reached. Killing foreground process (PID: %d). \n" [77] [],
              .kill 77 .SIGKILL] ⟨-1, none⟩ ∧
      Shell2.timer_handler idle = .ret [] idle :=
  ⟨(timer_handler_kills_foreground ⟨77, none⟩).1 (by decide),
   (timer_handler_kills_foreground idle).2 (by decide)⟩

/-- C7: from every state, in particular one with no foreground job and no pending alarm, a
successful foreground call of `execute_command` forks, arms the alarm, and enters the wait with
`foreground_pid` equal to the child's pid and the alarm pending; whatever arrives during the wait
(nothing, interrupts, the expiry of the alarm and the kill by `timer_handler`), the call returns
after disarming the alarm, with `foreground_pid = -1` and no alarm pending, which is the state the
next launch starts from. -/
theorem foreground_launch_arms_then_disarms (os : OS) (s : ShellState) (args : List Ptr)
    (hpid : 0 < os.forkRet) :
    ∃ during,
      Shell2.execute_command os s args 0 =
        .ret ([.fork os.forkRet, .alarm Shell2.TIMEOUT_SECONDS,
                .blocked os.forkRet ⟨os.forkRet, some Shell2.TIMEOUT_SECONDS⟩]
              ++ during ++ [.alarm 0])
          ⟨-1, none⟩ ∧
      during = (Shell2.deliverAll ⟨os.forkRet, some Shell2.TIMEOUT_SECONDS⟩ os.notices).trace := by
  obtain ⟨t, s1, h⟩ := deliverAll_returns os.notices ⟨os.forkRet, some Shell2.TIMEOUT_SECONDS⟩
  refine ⟨t, ?_, by rw [h]; rfl⟩
  have h1 : ¬ os.forkRet = -1 := by omega
  have h2 : ¬ os.forkRet = 0 := by omega
  have h3 := h
  simp only [Shell2.TIMEOUT_SECONDS] at h3
  simp only [Shell2.execute_command, sys_fork, Run.bind_def, Run.ret_bind, h1, h2, if_false,
      Shell2.parent_branch, if_true, Shell2.setup_timer, Shell2.cancel_timer, Shell2.sys_alarm,
    Shell2.sys_waitpid, emit, Run.pure_def, Shell2.TIMEOUT_SECONDS]
  simp only [Nat.reduceEqDiff, if_false, if_true, List.nil_append, List.singleton_append]
  rw [h3]
  simp [Run.bind]

/-- Witness of C7: the child 4242 outlives the timeout and is killed by the handler. -/
theorem foreground_launch_arms_then_disarms_witness :
    ∃ during,
      Shell2.execute_command { osParent with notices := [.alarmExpired] } idle emptyArgs 0 =
        .ret ([.fork 4242, .alarm Shell2.TIMEOUT_SECONDS,
                .blocked 4242 ⟨4242, some Shell2.TIMEOUT_SECONDS⟩]
              ++ during ++ [.alarm 0])
          ⟨-1, none⟩ ∧
      during = (Shell2.deliverAll ⟨4242, some Shell2.TIMEOUT_SECONDS⟩ [.alarmExpired]).trace :=
  foreground_launch_arms_then_disarms { osParent with notices := [.alarmExpired] } idle emptyArgs
    (by decide)

/-! ## shell.c: the operator scan -/

theorem load_nat (a : List Ptr) (j : Nat) (p : Ptr) (h : a[j]? = some p) :
    load a (j : Int) = pure p := by
  simp [load, h]

theorem isLastIndex_nil (t : CStr) : Spec.IsLastIndex [] t (-1) :=
  Or.inl ⟨rfl, by simp⟩

theorem isLastIndex_snoc_same (u : List CStr) (t : CStr) :
    Spec.IsLastIndex (u ++ [t]) t (u.length : Int) := by
  right
  refine ⟨u.length, rfl, by simp, ?_⟩
  intro m hm
  rw [List.getElem?_eq_none (by simp; omega)]
  simp

theorem isLastIndex_snoc_other (u : List CStr) (t a : CStr) (k : Int) (hne : a ≠ t)
    (h : Spec.IsLastIndex u t k) : Spec.IsLastIndex (u ++ [a]) t k := by
  rcases h with ⟨hk, hnot⟩ | ⟨n, hk, hn, hlast⟩
  · left
    refine ⟨hk, ?_⟩
    simp only [List.mem_append, List.mem_singleton, not_or]
    exact ⟨hnot, fun h => hne h.symm⟩
  · right
    have hlt : n < u.length := by
      by_contra hge
      rw [List.getElem?_eq_none (by omega)] at hn
      simp at hn
    refine ⟨n, hk, ?_, ?_⟩
    · rw [List.getElem?_append_left hlt]
      exact hn
    · intro m hm
      by_cases h1 : m < u.length
      · rw [List.getElem?_append_left h1]
        exact hlast m hm
      · by_cases h2 : m = u.length
        · subst h2
          simp only [List.getElem?_concat_length]
          intro h3
          exact hne (Option.some.inj h3)
        · rw [List.getElem?_eq_none (by simp; omega)]
          simp

theorem operator_scan_step_inv (arr : List Ptr) (u : List CStr) (a : CStr) (p : Shell.Positions)
    (h : arr[u.length]? = some (some a)) (hinv : ScanInv u p) :
    ∃ p1, Shell.operator_scan_step arr p u.length = .ret [] p1 ∧ ScanInv (u ++ [a]) p1 := by
  obtain ⟨h1, h2, h3⟩ := hinv
  unfold Shell.operator_scan_step
  rw [load_nat arr u.length _ h]
  simp only [Run.pure_bind', strcmp0]
  by_cases c1 : a = "<".toList
  · subst c1
    refine ⟨_, by simp only [decide_True, if_true]; rfl, ?_, ?_, ?_⟩
    · exact isLastIndex_snoc_same u _
    · exact isLastIndex_snoc_other u _ _ _ (by decide) h2
    · exact isLastIndex_snoc_other u _ _ _ (by decide) h3
  · by_cases c2 : a = ">".toList
    · subst c2
      refine ⟨_, by simp only [c1, decide_False, decide_True, if_true, if_false,
          Bool.false_eq_true]; rfl, ?_, ?_, ?_⟩
      · exact isLastIndex_snoc_other u _ _ _ (by decide) h1
      · exact isLastIndex_snoc_same u _
      · exact isLastIndex_snoc_other u _ _ _ (by decide) h3
    · by_cases c3 : a = "|".toList
      · subst c3
        refine ⟨_, by simp only [c1, c2, decide_False, decide_True, if_true, if_false,
            Bool.false_eq_true]; rfl, ?_, ?_, ?_⟩
        · exact isLastIndex_snoc_other u _ _ _ (by decide) h1
        · exact isLastIndex_snoc_other u _ _ _ (by decide) h2
        · exact isLastIndex_snoc_same u _
      · refine ⟨p, by simp only [c1, c2, c3, decide_False, if_false,
            Bool.false_eq_true]; rfl, ?_, ?_, ?_⟩
        · exact isLastIndex_snoc_other u _ _ _ c1 h1
        · exact isLastIndex_snoc_other u _ _ _ c2 h2
        · exact isLastIndex_snoc_other u _ _ _ c3 h3

theorem operator_scan_from_inv (tokens : List CStr) (rest : List Ptr) :
    ∀ (n j : Nat) (p : Shell.Positions), j + n = tokens.length → ScanInv (tokens.take j) p →
      ∃ p1, Shell.operator_scan_from (tokens.map some ++ rest) n j p = .ret [] p1 ∧
        ScanInv tokens p1 := by
  intro n
  induction n with
  | zero =>
    intro j p hj hinv
    have : tokens.take j = tokens := List.take_of_length_le (by omega)
    rw [this] at hinv
    exact ⟨p, rfl, hinv⟩
  | succ n ih =>
    intro j p hj hinv
    have hlt : j < tokens.length := by omega
    have hlen : (tokens.take j).length = j := by simp; omega
    have hget : (tokens.map some ++ rest)[(tokens.take j).length]? = some (some tokens[j]) := by
      rw [hlen, List.getElem?_append_left (by simpa using hlt)]
      simp [hlt]
    obtain ⟨p1, hstep, hinv1⟩ := operator_scan_step_inv _ _ _ p hget hinv
    rw [hlen] at hstep
    have htake : tokens.take j ++ [tokens[j]] = tokens.take (j + 1) := by
      rw [List.take_succ]
      simp [hlt]
    rw [htake] at hinv1
    obtain ⟨p2, hrest, hinv2⟩ := ih (j + 1) p1 (by omega) hinv1
    refine ⟨p2, ?_, hinv2⟩
    unfold Shell.operator_scan_from
    rw [hstep, Run.bind_def, Run.nil_bind, hrest]

/-- C4 (as amended): for every argument vector, whatever follows it in the array, the operator
scan of `main` ends without touching a null slot and records for each of `<`, `>` and `|` the
index of its last (rightmost) occurrence, or `-1` when the token does not occur; with two `|`
tokens the split point is the second one. -/
theorem operator_scan_records_last (tokens : List CStr) (rest : List Ptr) :
    ∃ p, Shell.operator_scan (tokens.map some ++ rest) tokens.length = .ret [] p ∧
      Spec.IsLastIndex tokens "<".toList p.redirect_in ∧
      Spec.IsLastIndex tokens ">".toList p.redirect_out ∧
      Spec.IsLastIndex tokens "|".toList p.pipe_pos :=
  operator_scan_from_inv tokens rest tokens.length 0 ⟨-1, -1, -1⟩ (by omega)
    ⟨isLastIndex_nil _, isLastIndex_nil _, isLastIndex_nil _⟩

/-- C4 refuted as stated: on `a | b | c` the scan records `pipe_pos = 3`, the second `|`,
while the first `|` is at index 1. -/
theorem operator_scan_not_first :
    Shell.operator_scan
        [some "a".toList, some "|".toList, some "b".toList, some "|".toList, some "c".toList,
          none] 5
      = .ret [] ⟨-1, -1, 3⟩ ∧
    List.indexOf "|".toList
        ["a".toList, "|".toList, "b".toList, "|".toList, "c".toList] = 1 := by
  decide

/-! ## Launches at concrete command lines -/

theorem pipe_block_never_returns (os : OS) (arguments : List Ptr) (pipe_pos : Int)
    (h : pipe_pos ≠ -1) : (Shell.pipe_block os arguments pipe_pos).returned = false := by
  unfold Shell.pipe_block
  simp only [h, ne_eq, not_false_eq_true, if_true]
  refine Run.returned_bind_right _ _ (fun a => ?_)
  refine Run.returned_bind_right _ _ (fun r => ?_)
  split
  · exact Run.returned_bind_right _ _ (fun _ => rfl)
  · refine Run.returned_bind_right _ _ (fun pid => ?_)
    split
    · refine Run.returned_bind_right _ _ (fun _ => ?_)
      refine Run.returned_bind_right _ _ (fun _ => ?_)
      refine Run.returned_bind_right _ _ (fun _ => ?_)
      refine Run.returned_bind_right _ _ (fun _ => ?_)
      refine Run.returned_bind_right _ _ (fun _ => ?_)
      exact Run.returned_bind_right _ _ (fun _ => rfl)
    · refine Run.returned_bind_right _ _ (fun _ => ?_)
      refine Run.returned_bind_right _ _ (fun _ => ?_)
      refine Run.returned_bind_right _ _ (fun _ => ?_)
      refine Run.returned_bind_right _ _ (fun _ => ?_)
      refine Run.returned_bind_right _ _ (fun _ => ?_)
      refine Run.returned_bind_right _ _ (fun _ => ?_)
      exact Run.returned_bind_right _ _ (fun _ => rfl)

set_option maxRecDepth 100000 in
/-- C1 fails on the code: on the line `ls | wc` the interpreter process (the one in which
`fork` returned the child's pid 4242) waits for the left command and then executes `wc` itself,
so its image is replaced; and for every argument vector with a pipe position, whatever the
operating system answers, `execute_command` never returns to the loop of `main`. -/
theorem pipe_line_ends_interpreter :
    Shell.main_iteration osParent [] emptyArguments "ls | wc\n".toList =
      .stop [.pipe 0, .fork 4242, .wait, .close .pipeWrite, .dup2 .pipeRead .stdin,
             .close .pipeRead, .execvp (some "wc".toList) ["wc".toList]] .replaced ∧
    (∀ (os : OS) (arguments : List Ptr) (redirect_in redirect_out pipe_pos : Int)
        (background : Bool), pipe_pos ≠ -1 →
      (Shell.execute_command os arguments redirect_in redirect_out pipe_pos background).returned
        = false) := by
  refine ⟨by decide, ?_⟩
  intro os arguments redirect_in redirect_out pipe_pos background h
  unfold Shell.execute_command
  exact Run.returned_bind_left _ _ (pipe_block_never_returns os arguments pipe_pos h)

/-- Witness of the second part of `pipe_line_ends_interpreter`, at the vector `ls | wc` when the
program `wc` cannot be executed. -/
theorem pipe_line_ends_interpreter_witness :
    (Shell.execute_command { osParent with execOk := fun _ => false }
        [some "ls".toList, some "|".toList, some "wc".toList, none] (-1) (-1) 1 false).returned
      = false :=
  pipe_line_ends_interpreter.2 _ _ (-1) (-1) 1 false (by decide)

set_option maxRecDepth 100000 in
/-- C2 fails on the code: on the line `ls > out` one iteration of the loop of shell2.c forks
twice in the interpreter (children 4242 and 4243), and the second child executes `ls` with the
unstripped vector `ls > out`. -/
theorem redirected_line_forks_twice :
    (Shell2.main_iteration osParent { osParent with forkRet := 4243 } idle [] emptyArgs
        "ls > out\n".toList).trace =
      [.fork 4242, .alarm 10, .blocked 4242 ⟨4242, some 10⟩, .alarm 0,
       .fork 4243, .alarm 10, .blocked 4243 ⟨4243, some 10⟩, .alarm 0] ∧
    Shell2.main_iteration osParent osChild idle [] emptyArgs "ls > out\n".toList =
      .stop [.fork 4242, .alarm 10, .blocked 4242 ⟨4242, some 10⟩, .alarm 0,
             .fork 0, .execvp (some "ls".toList) ["ls".toList, ">".toList, "out".toList]]
        .replaced := by
  constructor
  · decide
  · decide

/-- C3 fails on the code: on `cat < in.txt` the child opens the token at index 1, the operator
`<` itself, nulls slot 0 and calls `execvp` with a null program name; on `ls -l > out` the child
opens the token at index 2, the operator `>`, and executes `ls` without `-l`. -/
theorem redirection_uses_fixed_indices :
    Shell2.handle_io_redirection osChild idle
        [some "cat".toList, some "<".toList, some "in.txt".toList, none] 0 =
      .stop [.fork 0, .openRead (some "<".toList) 3, .dup2 (.file 3) .stdin, .close (.file 3),
             .execvp none []] .undefined ∧
    Shell2.handle_io_redirection osChild idle
        [some "ls".toList, some "-l".toList, some ">".toList, some "out".toList, none] 0 =
      .stop [.fork 0, .openWrite (some ">".toList) 3, .dup2 (.file 3) .stdout, .close (.file 3),
             .execvp (some "ls".toList) ["ls".toList]] .replaced := by
  decide

set_option maxRecDepth 100000 in
/-- C9 fails on the code: on the line `cat <` the interpreter forks and waits for child 4242,
and that child passes the null slot after `<` to `open`; on the line `ls |` the interpreter
passes the null slot after `|` to `execvp` as the program name. -/
theorem dangling_operator_is_launched :
    (Shell.main_iteration osParent [] emptyArguments "cat <\n".toList).trace =
      [.fork 4242, .waitpid 4242] ∧
    Shell.main_iteration osChild [] emptyArguments "cat <\n".toList =
      .stop [.fork 0, .openRead none (-1), .perror "open for input failed", .exit 1]
        (.exited 1) ∧
    Shell.main_iteration osParent [] emptyArguments "ls |\n".toList =
      .stop [.pipe 0, .fork 4242, .wait, .close .pipeWrite, .dup2 .pipeRead .stdin,
             .close .pipeRead, .execvp none []] .undefined := by
  decide

set_option maxRecDepth 100000 in
/-- C10 fails on the code: the line `ls &` tokenizes to two tokens (`i = 2`); the background
check nulls slot 1 and leaves `i` at 2, so the operator scan reaches `j = 1` and hands the null
slot to `strcmp`. -/
theorem background_strip_leaves_null_in_scan :
    (Shell.tokenize "ls &\n".toList emptyArguments).map (fun r => (r.1.take 3, r.2)) =
      some ([some "ls".toList, some "&".toList, none], 2) ∧
    Shell.operator_scan_step [some "ls".toList, none, none] ⟨-1, -1, -1⟩ 1 =
      .stop [] .undefined ∧
    Shell.main_iteration osParent [] emptyArguments "ls &\n".toList = .stop [] .undefined := by
  decide

/-- C5 refuted as stated: on the line `ls&` the flag is set although the last token is `ls&`,
and on the line `ls & ` the flag is not set although the last token is `&`. -/
theorem background_flag_not_by_token :
    Shell2.background_check "ls&\n".toList = some (1, "ls".toList) ∧
    (Spec.tokens "ls&".toList).getLast? = some "ls&".toList ∧
    Shell2.background_check "ls & \n".toList = some (0, "ls & ".toList) ∧
    (Spec.tokens "ls & ".toList).getLast? = some "&".toList := by
  decide

